import Mathlib

/-!
# Verification of the WkfBox media-catalog core

Shallow embedding of `src/WkfBox.py` (a small Flask image-catalog app) and
proofs about its catalog engine: `slugify`, picture upload, picture deletion,
category creation, listing/pagination, random pick, and the bulk
thumbnail-regeneration sweep.

Conventions of the embedding:
* Strings are `List Char`; Python text operations are modelled character by
  character, faithful on ASCII inputs (theorems about `slugify` restrict
  inputs to ASCII because the third-party `unidecode` transliteration table
  is the identity exactly on ASCII code points).
* The SQLite database is a pure state record (`St`); `db.session.commit`
  failure is an explicit boolean oracle passed to the operation.
* `uuid.uuid4()` is modelled as a deterministic fresh-name source drawn from
  a counter held in the state; the only properties of real UUID strings the
  development relies on are the ones proved of the model: distinct draws
  give distinct names, and a generated name contains no `.` character.
* Image bytes are abstracted as `Nat`; thumbnail derivation
  (`PIL Image.thumbnail` + `save`) is the abstract function `deriveThumb`.
-/

set_option autoImplicit false

namespace WkfBox

/-! ## Character classes used by `slugify` and the form validators -/

/-- The character class of `_punct_re` in `src/WkfBox.py`, given by ASCII
code point: tab, space, `!"#$%&'()*`, comma, hyphen, period, slash, `<=>?@`,
opening bracket, backslash, closing bracket, caret, underscore, backquote,
and the three characters brace/bar/brace.  Note that `+`, `:`, `;` and `~`
are *not* in the class. -/
def isPunctChar (c : Char) : Bool :=
  c.toNat ∈ [9, 32, 33, 34, 35, 36, 37, 38, 39, 40, 41, 42, 44, 45, 46, 47,
             60, 61, 62, 63, 64, 91, 92, 93, 94, 95, 96, 123, 124, 125]

/-- ASCII whitespace recognised by Python's `str.split()` with no argument:
tab, newline, vertical tab, form feed, carriage return, space. -/
def isSpaceChar (c : Char) : Bool :=
  c.toNat ∈ [9, 10, 11, 12, 13, 32]

/-- A character that survives both splitting stages of `slugify`. -/
def isGoodChar (c : Char) : Bool :=
  !(isPunctChar c) && !(isSpaceChar c)

/-- Python `str.lower()` restricted to ASCII: map `A`–`Z` to `a`–`z`. -/
def pyLower (c : Char) : Char :=
  if 65 ≤ c.toNat ∧ c.toNat ≤ 90 then Char.ofNat (c.toNat + 32) else c

/-- ASCII predicate: the embedding of the Python text pipeline is faithful on
characters below code point 128. -/
def isAscii (c : Char) : Bool := c.toNat < 128

/-! ## `slugify` -/

/-- `unidecode` (third-party transliteration library used by `slugify`).
Modelled from the spec: the library's transliteration table is not part of
`src/`; on ASCII code points `unidecode` is the identity, and every theorem
about `slugify` restricts its input to ASCII, so the model is the identity. -/
def unidecodeModel (w : List Char) : List Char := w

/-- `_punct_re.split(s)`: split on maximal runs of `isPunctChar` characters,
keeping the (possibly empty) pieces between runs.  Examples mirroring
`re.split('[...]+', s)`: `""` ↦ `[""]`, `"a--b"` ↦ `["a", "b"]`,
`"-a-"` ↦ `["", "a", ""]`. -/
def splitPunct : List Char → List (List Char)
  | [] => [[]]
  | c :: cs =>
    if isPunctChar c then
      match cs with
      | [] => [[], []]
      | d :: _ =>
        if isPunctChar d then splitPunct cs
        else [] :: splitPunct cs
    else
      match splitPunct cs with
      | [] => [[c]]
      | w :: ws => (c :: w) :: ws

/-- Python `str.split()` with no argument: the maximal runs of
non-whitespace characters, empty pieces discarded. -/
def pySplit : List Char → List (List Char)
  | [] => []
  | [c] => if isSpaceChar c then [] else [[c]]
  | c :: d :: cs =>
    if isSpaceChar c then pySplit (d :: cs)
    else if isSpaceChar d then [c] :: pySplit cs
    else
      match pySplit (d :: cs) with
      | [] => [[c]]
      | w :: ws => (c :: w) :: ws

/-- `delim.join(words)` with `delim = '-'`. -/
def joinWords : List (List Char) → List Char
  | [] => []
  | [w] => w
  | w :: w2 :: ws => w ++ '-' :: joinWords (w2 :: ws)

/-- The word list produced inside `slugify`: split the lowered text on
punctuation runs, transliterate each piece, and split each piece on
whitespace, concatenating the results. -/
def slugWords (text : List Char) : List (List Char) :=
  (splitPunct text).flatMap (fun w => pySplit (unidecodeModel w))

/-- `slugify(text, delim='-')` from `src/WkfBox.py`:
lower-case the text, split on punctuation runs, transliterate and
whitespace-split each piece, and join the words with `-`. -/
def slugifyChars (text : List Char) : List Char :=
  joinWords (slugWords (text.map pyLower))

/-- The character class of the claimed output regex `^[a-z0-9-]*$`. -/
def isSlugOutChar (c : Char) : Bool :=
  (97 ≤ c.toNat && c.toNat ≤ 122) || (48 ≤ c.toNat && c.toNat ≤ 57) || c.toNat = 45

/-- The invariant of a slug's word list: every word is nonempty, made of
characters that are neither separator punctuation nor whitespace, and fixed
by lower-casing. -/
def WordsOk (ws : List (List Char)) : Prop :=
  ∀ w ∈ ws, w ≠ [] ∧ ∀ c ∈ w, isGoodChar c = true ∧ pyLower c = c


/-! ## Catalog data model -/

/-- Request outcomes, as surfaced by the web layer of `src/WkfBox.py`:
form-validation failure (the form page is re-rendered with a message),
the `Unique` validator's duplicate-slug failure, `abort(404)`, a raised
`db.session.commit()` (storage failure), an uncaught `IOError` from `open()`
on a missing file, and an uncaught `IndexError` from indexing an empty
query result. -/
inductive Err where
  | validation
  | conflict
  | notFound
  | dbFail
  | ioFail
  | indexError
  deriving DecidableEq

instance {ε α : Type} [DecidableEq ε] [DecidableEq α] : DecidableEq (Except ε α) := fun a b =>
  match a, b with
  | .error e1, .error e2 =>
    if h : e1 = e2 then .isTrue (by rw [h]) else
      .isFalse (fun he => h (by cases he; rfl))
  | .error _, .ok _ => .isFalse (fun he => by cases he)
  | .ok _, .error _ => .isFalse (fun he => by cases he)
  | .ok a1, .ok a2 =>
    if h : a1 = a2 then .isTrue (by rw [h]) else
      .isFalse (fun he => h (by cases he; rfl))

/-- A `categories` row: `id` primary key, `slug` unique, `name`. -/
structure Category where
  id : Nat
  slug : List Char
  name : List Char
  deriving DecidableEq

/-- A `pictures` row. -/
structure Pic where
  id : Nat
  userId : Option Nat
  categoryId : Option Nat
  filename : List Char
  originalFilename : Option (List Char)
  thumbnail : List Char
  episode : Option Int
  deriving DecidableEq

/-- The content store (`UPLOAD_DIRECTORY`): an association list from file
name to abstract file content. -/
abbrev Store := List (List Char × Nat)

def lookupFile (fs : Store) (name : List Char) : Option Nat :=
  (fs.find? (fun f => decide (f.1 = name))).map (fun f => f.2)

/-- `os.unlink`, with a missing file being no error for the caller that
ignores `OSError`. -/
def removeFile (fs : Store) (name : List Char) : Store :=
  fs.filter (fun f => decide (f.1 ≠ name))

/-- `open(name, 'w')` + write: create or overwrite. -/
def writeFile (fs : Store) (name : List Char) (content : Nat) : Store :=
  removeFile fs name ++ [(name, content)]

/-- Abstract thumbnail derivation: `Image.open` on the source bytes,
`Image.thumbnail(size, ANTIALIAS)`, `Image.save`.  Image bytes are
abstracted as `Nat`, so the derivation is the injective pairing of the
source content with the configured size bound. -/
def deriveThumb (content thumbSize : Nat) : Nat := Nat.pair content thumbSize

/-- `str(uuid.uuid4())`, modelled as a deterministic fresh-name source
indexed by a draw counter.  The development relies only on the two
properties real UUID strings have: distinct draws give distinct names
(`uuidStr` is injective) and the name contains no `.` character. -/
def uuidStr (n : Nat) : List Char := List.replicate (n + 1) 'u'

/-- The literal `'.thumb.jpg'` appended to the generated identifier. -/
def thumbSuffix : List Char := ['.', 't', 'h', 'u', 'm', 'b', '.', 'j', 'p', 'g']

/-- The suffix of `s` starting at its *last* `.`, when `s` contains one. -/
def lastDotSuffix : List Char → Option (List Char)
  | [] => none
  | c :: cs =>
    match lastDotSuffix cs with
    | some e => some e
    | none => if c = '.' then some (c :: cs) else none

/-- `os.path.splitext(s)[1]`: the extension including its leading dot;
empty when `s` has no dot or when every character before the last dot is
itself a dot (so `.bashrc`-style names have no extension). -/
def splitextExt (s : List Char) : List Char :=
  match lastDotSuffix s with
  | none => []
  | some e => if (s.take (s.length - e.length)).all (fun c => decide (c = '.')) then [] else e

/-- `os.path.splitext(name)[-1]` as used by both `FileAllowed` and `upload`. -/
def fileExtOf (name : List Char) : List Char := splitextExt name

/-- Modelled from the spec: `werkzeug.utils.secure_filename` is a
third-party sanitizer not part of `src/`; the model keeps the one property
the spec relies on — the result is safe as a path component (no separator
characters) — and none of the proofs depend on further detail. -/
def secureFilenameModel (s : List Char) : List Char :=
  s.filter (fun c => decide (c ≠ '/') && decide (c ≠ Char.ofNat 92))

/-- The whole application state: the UUID draw counter, the autoincrement
row counters, the three table contents that matter here, and the content
store. -/
structure St where
  nextUuid : Nat
  nextPicId : Nat
  nextCatId : Nat
  categories : List Category
  pictures : List Pic
  files : Store
  deriving DecidableEq

/-! ## Category creation (`CategoryForm` + `add_category`) -/

/-- The slug-field regexp of `CategoryForm`: `^[0-9a-z\-]+$` (note: one or
more characters, so an empty resolved slug fails validation). -/
def matchesCatSlugRe (s : List Char) : Bool :=
  !s.isEmpty &&
    s.all (fun c => (48 ≤ c.toNat && c.toNat ≤ 57) ||
                    (97 ≤ c.toNat && c.toNat ≤ 122) || c.toNat = 45)

/-- The `DataRequired` validator: fails on an empty or all-whitespace
string. -/
def dataRequired (s : List Char) : Bool := s.any (fun c => !(isSpaceChar c))

/-- `SlugField.pre_validate`: an empty submitted slug is replaced by
`slugify` of the name field (the same value `Category.__init__` computes
when it is handed `None`). -/
def resolveSlug (name slugInput : List Char) : List Char :=
  if slugInput.isEmpty then slugifyChars name else slugInput

/-- `add_category`: validate the form (`DataRequired` on the name, the slug
regexp, then the `Unique(Category.slug)` constraint), and on success insert
the new `Category` row and commit. -/
def addCategoryOp (st : St) (name slugInput : List Char) : St × Except Err Category :=
  let resolved := resolveSlug name slugInput
  if !dataRequired name then (st, .error .validation)
  else if !matchesCatSlugRe resolved then (st, .error .validation)
  else if st.categories.any (fun c => decide (c.slug = resolved)) then (st, .error .conflict)
  else
    let cat : Category := ⟨st.nextCatId, resolved, name⟩
    ({ st with categories := st.categories ++ [cat], nextCatId := st.nextCatId + 1 },
     .ok cat)

/-! ## Picture upload (`UploadForm` + `upload`) -/

/-- The caller-supplied data of one upload request. -/
structure UploadInput where
  clientFilename : List Char
  content : Nat
  user : Nat
  category : Option Nat
  episode : Option Int
  deriving DecidableEq

/-- `upload`: validate the form (`FileAllowed` checks
`os.path.splitext(raw filename)[-1] in ALLOWED_EXTS`; `episode` is optional
but must be `>= 1` when present); then write the thumbnail, write the
original, and finally insert the `Picture` row and commit.  `commitOk` is
the oracle for whether `db.session.commit()` succeeds; on failure the
exception propagates — note that the files written before the commit are
left in place. -/
def uploadOp (allowedExts : List (List Char)) (thumbSize : Nat) (st : St)
    (inp : UploadInput) (commitOk : Bool) : St × Except Err Pic :=
  if !(allowedExts.any (fun e => decide (e = fileExtOf inp.clientFilename))) then
    (st, .error .validation)
  else if (match inp.episode with | some e => decide (e < 1) | none => false) then
    (st, .error .validation)
  else
    let originalFilename := secureFilenameModel inp.clientFilename
    let fileext := fileExtOf originalFilename
    let filename := uuidStr st.nextUuid
    let thumbnail := filename ++ thumbSuffix
    let files1 := writeFile st.files thumbnail (deriveThumb inp.content thumbSize)
    let files2 := writeFile files1 (filename ++ fileext) inp.content
    let st1 := { st with nextUuid := st.nextUuid + 1, files := files2 }
    if commitOk then
      let pic : Pic :=
        { id := st1.nextPicId
          userId := some inp.user
          categoryId := inp.category
          filename := filename ++ fileext
          originalFilename := some originalFilename
          thumbnail := thumbnail
          episode := match inp.episode with | some 0 => none | e => e }
      ({ st1 with pictures := st1.pictures ++ [pic], nextPicId := st1.nextPicId + 1 },
       .ok pic)
    else (st1, .error .dbFail)

/-! ## Single view, deletion, random pick (`show`, `delete`, `random`) -/

/-- `show` (the `getPicture` operation): fetch the row or `abort(404)`. -/
def showOp (st : St) (id : Nat) : Except Err Pic :=
  match st.pictures.find? (fun p => decide (p.id = id)) with
  | none => .error .notFound
  | some p => .ok p

/-- `delete`: fetch the row or `abort(404)`, then delete the row and
commit.  The artifact files are not touched. -/
def deleteOp (st : St) (id : Nat) : St × Except Err Unit :=
  match st.pictures.find? (fun p => decide (p.id = id)) with
  | none => (st, .error .notFound)
  | some _ =>
    ({ st with pictures := st.pictures.filter (fun p => decide (p.id ≠ id)) }, .ok ())

/-- `random`: `Picture.query.order_by(func.random())[0]`.  The database's
random ordering is modelled by the oracle `pick` selecting an element; on an
empty table, `Query.__getitem__` materialises `[]` and the `[0]` raises an
uncaught `IndexError`. -/
def randomOp (st : St) (pick : Nat) : Except Err Pic :=
  match st.pictures with
  | [] => .error .indexError
  | p :: ps => .ok ((p :: ps).get ⟨pick % (p :: ps).length, Nat.mod_lt _ (Nat.succ_pos _)⟩)

/-! ## Listing (`list`) -/

/-- `math.ceil(float(count) / per)` for the page total (exact rational
ceiling, which the float computation realises for every realistic count). -/
def ceilDivM (count per : Nat) : Nat := (count + per - 1) / per

/-- Python slice-index normalisation for `l[a:b]`. -/
def pyNormIdx (n : Nat) (i : Int) : Nat :=
  if i < 0 then (max 0 ((n : Int) + i)).toNat else min n i.toNat

/-- Python list slicing `l[a:b]` (step 1), as run by SQLAlchemy for
negative bounds. -/
def pySlice {α : Type} (l : List α) (a b : Int) : List α :=
  (l.take (pyNormIdx l.length b)).drop (pyNormIdx l.length a)

/-- SQLAlchemy `Query.__getitem__` on a slice: empty when `b - a <= 0`;
materialise and Python-slice when a bound is negative; otherwise
`OFFSET a LIMIT (b - a)`. -/
def querySlice {α : Type} (l : List α) (a b : Int) : List α :=
  if b - a ≤ 0 then []
  else if a < 0 || b < 0 then pySlice l a b
  else (l.drop a.toNat).take (b - a).toNat

/-- The ordering of `order_by(desc(Picture.id))`: `a` before `b` when
`a.id >= b.id`. -/
def descById (a b : Pic) : Prop := b.id ≤ a.id

instance : DecidableRel descById := fun a b => Nat.decLe b.id a.id

instance : IsTotal Pic descById := ⟨fun a b => Nat.le_total b.id a.id⟩

instance : IsTrans Pic descById := ⟨fun _ _ _ h1 h2 => Nat.le_trans h2 h1⟩

/-- `order_by(desc(Picture.id))`: sort the rows by descending `id` (ids are
the autoincrement primary key, so this is most-recently-created first). -/
def orderByIdDesc (l : List Pic) : List Pic :=
  List.insertionSort descById l

/-- The filtering phase of `list`: no category slug means the whole table;
an unknown slug is `abort(404)`; the episode filter applies only under a
category filter and only for a truthy (non-zero) episode. -/
def matchedPics (cats : List Category) (pics : List Pic)
    (slugFilter : Option (List Char)) (episodeFilter : Option Int) :
    Option (List Pic) :=
  match slugFilter with
  | none => some pics
  | some s =>
    match cats.find? (fun c => decide (c.slug = s)) with
    | none => none
    | some cat =>
      let base := pics.filter (fun p => decide (p.categoryId = some cat.id))
      match episodeFilter with
      | some e => if e ≠ 0 then base.filter (fun p => decide (p.episode = some e)) else base
      | none => base

/-- `list`: compute the slice bounds from the 1-based `page` and `PER_PAGE`,
resolve the filters, count the matches, compute `total_page`, `abort(404)`
when `range_start > count`, and return the ordered slice. -/
def listOp (perPage : Nat) (cats : List Category) (pics : List Pic)
    (slugFilter : Option (List Char)) (episodeFilter : Option Int) (page : Int) :
    Except Err (List Pic × Nat) :=
  let rangeStart : Int := (page - 1) * perPage
  let rangeEnd : Int := page * perPage
  match matchedPics cats pics slugFilter episodeFilter with
  | none => .error .notFound
  | some ms =>
    let count := ms.length
    let totalPage := ceilDivM count perPage
    if rangeStart > (count : Int) then .error .notFound
    else .ok (querySlice (orderByIdDesc ms) rangeStart rangeEnd, totalPage)

/-! ## Bulk thumbnail regeneration (`rebuild_thumbnail`) -/

/-- `rebuild_thumbnail`: for each picture, unlink its thumbnail (ignoring
`OSError`, so a missing thumbnail is tolerated), then `open` its original —
which is *outside* the `try`, so a missing original raises an uncaught
`IOError` — and re-derive and save the thumbnail. -/
def rebuildThumbnail (thumbSize : Nat) (ps : List Pic) (files : Store) :
    Except Err Store :=
  match ps with
  | [] => .ok files
  | p :: rest =>
    let files1 := removeFile files p.thumbnail
    match lookupFile files1 p.filename with
    | none => .error .ioFail
    | some content =>
      rebuildThumbnail thumbSize rest (writeFile files1 p.thumbnail (deriveThumb content thumbSize))

/-! ### Lemmas about the `slugify` pipeline -/

theorem toNat_ofNat_of_lt {n : Nat} (h : n < 55296) : (Char.ofNat n).toNat = n := by
  have hv : n.isValidChar := Or.inl h
  simp [Char.ofNat, hv, Char.toNat, Char.ofNatAux, UInt32.toNat, UInt32.ofNatCore,
    BitVec.toNat_ofNatLt]

theorem pyLower_idem (c : Char) : pyLower (pyLower c) = pyLower c := by
  unfold pyLower
  split
  · next h =>
    have ht : (Char.ofNat (c.toNat + 32)).toNat = c.toNat + 32 :=
      toNat_ofNat_of_lt (by omega)
    rw [if_neg (by omega)]
  · rfl

@[simp] theorem splitPunct_nil : splitPunct [] = [[]] := rfl

theorem splitPunct_punct_last {d : Char} (hd : isPunctChar d = true) :
    splitPunct [d] = [[], []] := by
  simp [splitPunct, hd]

theorem splitPunct_punct_punct {d d1 : Char} {tl : List Char}
    (hd : isPunctChar d = true) (hd1 : isPunctChar d1 = true) :
    splitPunct (d :: d1 :: tl) = splitPunct (d1 :: tl) := by
  simp [splitPunct, hd, hd1]

theorem splitPunct_punct_good {d d1 : Char} {tl : List Char}
    (hd : isPunctChar d = true) (hd1 : isPunctChar d1 = false) :
    splitPunct (d :: d1 :: tl) = [] :: splitPunct (d1 :: tl) := by
  simp [splitPunct, hd, hd1]

theorem splitPunct_good_cons {d : Char} {tl v : List Char} {vs : List (List Char)}
    (hd : isPunctChar d = false) (h : splitPunct tl = v :: vs) :
    splitPunct (d :: tl) = (d :: v) :: vs := by
  simp [splitPunct, hd, h]

theorem splitPunct_ne_nil (l : List Char) : splitPunct l ≠ [] := by
  induction l using splitPunct.induct with
  | case1 => simp
  | case2 d hd => simp [splitPunct_punct_last hd]
  | case3 d hd d1 tail hd1 ih => simpa [splitPunct_punct_punct hd hd1] using ih
  | case4 d hd d1 tail hd1 ih =>
    simp [splitPunct_punct_good hd (Bool.not_eq_true _ ▸ hd1)]
  | case5 d tail hd h ih => exact absurd h ih
  | case6 d tail hd w ws h ih =>
    simp [splitPunct_good_cons (Bool.not_eq_true _ ▸ hd) h]

theorem mem_splitPunct {l w : List Char} (hw : w ∈ splitPunct l) :
    (∀ c ∈ w, isPunctChar c = false) ∧ (∀ c ∈ w, c ∈ l) := by
  induction l using splitPunct.induct generalizing w with
  | case1 =>
    simp at hw
    simp [hw]
  | case2 d hd =>
    rw [splitPunct_punct_last hd] at hw
    simp at hw
    simp [hw]
  | case3 d hd d1 tail hd1 ih =>
    rw [splitPunct_punct_punct hd hd1] at hw
    obtain ⟨h1, h2⟩ := ih hw
    exact ⟨h1, fun x hx => List.mem_cons_of_mem _ (h2 x hx)⟩
  | case4 d hd d1 tail hd1 ih =>
    rw [splitPunct_punct_good hd (Bool.not_eq_true _ ▸ hd1)] at hw
    rcases List.mem_cons.mp hw with rfl | h
    · simp
    · obtain ⟨h1, h2⟩ := ih h
      exact ⟨h1, fun x hx => List.mem_cons_of_mem _ (h2 x hx)⟩
  | case5 d tail hd h ih => exact absurd h (splitPunct_ne_nil tail)
  | case6 d tail hd v vs h ih =>
    rw [splitPunct_good_cons (Bool.not_eq_true _ ▸ hd) h] at hw
    rcases List.mem_cons.mp hw with rfl | h1
    · obtain ⟨g1, g2⟩ := ih (h ▸ List.mem_cons_self v vs)
      refine ⟨?_, ?_⟩
      · intro x hx
        rcases List.mem_cons.mp hx with rfl | hx
        · exact Bool.not_eq_true _ ▸ hd
        · exact g1 x hx
      · intro x hx
        rcases List.mem_cons.mp hx with rfl | hx
        · exact List.mem_cons_self _ _
        · exact List.mem_cons_of_mem _ (g2 x hx)
    · obtain ⟨g1, g2⟩ := ih (h ▸ List.mem_cons_of_mem v h1)
      exact ⟨g1, fun x hx => List.mem_cons_of_mem _ (g2 x hx)⟩

@[simp] theorem pySplit_nil : pySplit [] = [] := rfl

theorem pySplit_single {c : Char} :
    pySplit [c] = if isSpaceChar c then [] else [[c]] := by
  simp [pySplit]

theorem pySplit_space_cons {c d : Char} {cs : List Char}
    (hc : isSpaceChar c = true) : pySplit (c :: d :: cs) = pySplit (d :: cs) := by
  simp [pySplit, hc]

theorem pySplit_good_space {c d : Char} {cs : List Char}
    (hc : isSpaceChar c = false) (hd : isSpaceChar d = true) :
    pySplit (c :: d :: cs) = [c] :: pySplit cs := by
  simp [pySplit, hc, hd]

theorem pySplit_good_good {c d : Char} {cs v : List Char} {vs : List (List Char)}
    (hc : isSpaceChar c = false) (hd : isSpaceChar d = false)
    (h : pySplit (d :: cs) = v :: vs) :
    pySplit (c :: d :: cs) = (c :: v) :: vs := by
  simp [pySplit, hc, hd, h]

theorem pySplit_cons_ne_nil {d : Char} {cs : List Char}
    (hd : isSpaceChar d = false) : pySplit (d :: cs) ≠ [] := by
  match cs with
  | [] => simp [pySplit_single, hd]
  | e :: es =>
    by_cases he : isSpaceChar e
    · simp [pySplit_good_space hd he]
    · match h : pySplit (e :: es) with
      | [] => exact absurd h (pySplit_cons_ne_nil (Bool.not_eq_true _ ▸ he))
      | v :: vs => simp [pySplit_good_good hd (Bool.not_eq_true _ ▸ he) h]

theorem mem_pySplit {l w : List Char} (hw : w ∈ pySplit l) :
    w ≠ [] ∧ (∀ c ∈ w, isSpaceChar c = false) ∧ (∀ c ∈ w, c ∈ l) := by
  induction l using pySplit.induct generalizing w with
  | case1 => simp at hw
  | case2 c hc => simp [pySplit_single, hc] at hw
  | case3 c hc =>
    have hc' : isSpaceChar c = false := Bool.not_eq_true _ ▸ hc
    rw [pySplit_single, if_neg (by simp [hc'])] at hw
    rcases List.mem_singleton.mp hw with rfl
    exact ⟨by simp, by simp [hc'], by simp⟩
  | case4 c d cs hc ih =>
    rw [pySplit_space_cons hc] at hw
    obtain ⟨h1, h2, h3⟩ := ih hw
    exact ⟨h1, h2, fun x hx => List.mem_cons_of_mem _ (h3 x hx)⟩
  | case5 c d cs hc hd ih =>
    have hc' : isSpaceChar c = false := Bool.not_eq_true _ ▸ hc
    rw [pySplit_good_space hc' hd] at hw
    rcases List.mem_cons.mp hw with rfl | h
    · exact ⟨by simp, by simp [hc'], by simp⟩
    · obtain ⟨h1, h2, h3⟩ := ih h
      exact ⟨h1, h2, fun x hx =>
        List.mem_cons_of_mem _ (List.mem_cons_of_mem _ (h3 x hx))⟩
  | case6 c d cs hc hd h ih =>
    exact absurd h (pySplit_cons_ne_nil (Bool.not_eq_true _ ▸ hd))
  | case7 c d cs hc hd v vs h ih =>
    have hc' : isSpaceChar c = false := Bool.not_eq_true _ ▸ hc
    have hd' : isSpaceChar d = false := Bool.not_eq_true _ ▸ hd
    rw [pySplit_good_good hc' hd' h] at hw
    rcases List.mem_cons.mp hw with rfl | h1
    · obtain ⟨g1, g2, g3⟩ := ih (h ▸ List.mem_cons_self v vs)
      refine ⟨by simp, ?_, ?_⟩
      · intro x hx
        rcases List.mem_cons.mp hx with rfl | hx
        · exact hc'
        · exact g2 x hx
      · intro x hx
        rcases List.mem_cons.mp hx with rfl | hx
        · exact List.mem_cons_self _ _
        · exact List.mem_cons_of_mem _ (g3 x hx)
    · obtain ⟨g1, g2, g3⟩ := ih (h ▸ List.mem_cons_of_mem v h1)
      exact ⟨g1, g2, fun x hx => List.mem_cons_of_mem _ (g3 x hx)⟩

theorem map_of_fixed {l : List Char} (h : ∀ c ∈ l, pyLower c = c) :
    l.map pyLower = l := by
  induction l with
  | nil => rfl
  | cons c cs ih => simp_all

theorem slugWords_wordsOk (l : List Char) : WordsOk (slugWords (l.map pyLower)) := by
  intro w hw
  obtain ⟨u, hu, hwu⟩ := List.mem_flatMap.mp hw
  obtain ⟨hne, hns, hsub⟩ := mem_pySplit (l := unidecodeModel u) hwu
  obtain ⟨hnp, husub⟩ := mem_splitPunct hu
  refine ⟨hne, fun c hc => ?_⟩
  have hcl : c ∈ l.map pyLower := husub c (hsub c hc)
  obtain ⟨c0, _, rfl⟩ := List.mem_map.mp hcl
  refine ⟨?_, pyLower_idem c0⟩
  have h1 : isPunctChar (pyLower c0) = false := hnp _ (hsub _ hc)
  have h2 : isSpaceChar (pyLower c0) = false := hns _ hc
  simp [isGoodChar, h1, h2]

theorem joinWords_cons (w w2 : List Char) (ws : List (List Char)) :
    joinWords (w :: w2 :: ws) = w ++ '-' :: joinWords (w2 :: ws) := rfl

theorem joinWords_cons_eq_append (w : List Char) (ws : List (List Char)) :
    ∃ r, joinWords (w :: ws) = w ++ r := by
  match ws with
  | [] => exact ⟨[], by simp [joinWords]⟩
  | w2 :: ws => exact ⟨'-' :: joinWords (w2 :: ws), rfl⟩

theorem mem_joinWords {c : Char} {ws : List (List Char)}
    (hc : c ∈ joinWords ws) : c = '-' ∨ ∃ w ∈ ws, c ∈ w := by
  match ws with
  | [] => simp [joinWords] at hc
  | [w] => exact Or.inr ⟨w, by simp, hc⟩
  | w :: w2 :: ws =>
    rw [joinWords_cons] at hc
    rcases List.mem_append.mp hc with h | h
    · exact Or.inr ⟨w, by simp, h⟩
    · rcases List.mem_cons.mp h with rfl | h
      · exact Or.inl rfl
      · rcases mem_joinWords h with h1 | ⟨v, hv, hcv⟩
        · exact Or.inl h1
        · exact Or.inr ⟨v, List.mem_cons_of_mem _ hv, hcv⟩

theorem splitPunct_good_append {w l v : List Char} {vs : List (List Char)}
    (hwp : ∀ c ∈ w, isPunctChar c = false) (h : splitPunct l = v :: vs) :
    splitPunct (w ++ l) = (w ++ v) :: vs := by
  induction w with
  | nil => simpa using h
  | cons c w ih =>
    have hc : isPunctChar c = false := hwp c (List.mem_cons_self _ _)
    have ih' := ih (fun x hx => hwp x (List.mem_cons_of_mem _ hx))
    simpa using splitPunct_good_cons hc ih'

theorem pySplit_good_word {w : List Char} (hne : w ≠ [])
    (hns : ∀ c ∈ w, isSpaceChar c = false) : pySplit w = [w] := by
  match w with
  | [c] => simp [pySplit_single, hns c (List.mem_cons_self _ _)]
  | c :: d :: cs =>
    have hc : isSpaceChar c = false := hns c (List.mem_cons_self _ _)
    have hd : isSpaceChar d = false :=
      hns d (List.mem_cons_of_mem _ (List.mem_cons_self _ _))
    have ih : pySplit (d :: cs) = [d :: cs] :=
      pySplit_good_word (by simp) (fun x hx => hns x (List.mem_cons_of_mem _ hx))
    exact pySplit_good_good hc hd ih

theorem slugWords_joinWords {ws : List (List Char)} (hws : WordsOk ws) :
    slugWords (joinWords ws) = ws := by
  match ws with
  | [] => rfl
  | [w] =>
    obtain ⟨hne, hgood⟩ := hws w (List.mem_cons_self _ _)
    have hnp : ∀ c ∈ w, isPunctChar c = false := by
      intro c hc
      have := (hgood c hc).1
      simp [isGoodChar] at this
      exact this.1
    have hns : ∀ c ∈ w, isSpaceChar c = false := by
      intro c hc
      have := (hgood c hc).1
      simp [isGoodChar] at this
      exact this.2
    have hsp : splitPunct (joinWords [w]) = [w] := by
      have := splitPunct_good_append hnp splitPunct_nil
      simpa [joinWords] using this
    simp [slugWords, hsp, unidecodeModel, pySplit_good_word hne hns]
  | w :: w2 :: ws =>
    obtain ⟨hne, hgood⟩ := hws w (List.mem_cons_self _ _)
    obtain ⟨hne2, hgood2⟩ := hws w2 (List.mem_cons_of_mem _ (List.mem_cons_self _ _))
    have hnp : ∀ c ∈ w, isPunctChar c = false := by
      intro c hc
      have := (hgood c hc).1
      simp [isGoodChar] at this
      exact this.1
    have hns : ∀ c ∈ w, isSpaceChar c = false := by
      intro c hc
      have := (hgood c hc).1
      simp [isGoodChar] at this
      exact this.2
    have ih : slugWords (joinWords (w2 :: ws)) = w2 :: ws :=
      slugWords_joinWords (fun v hv => hws v (List.mem_cons_of_mem _ hv))
    -- the tail of the join starts with the first character of `w2`
    obtain ⟨r, hr⟩ := joinWords_cons_eq_append w2 ws
    obtain ⟨e, es, he⟩ : ∃ e es, joinWords (w2 :: ws) = e :: es := by
      match hw2 : w2 with
      | c :: cs => exact ⟨c, cs ++ r, by simpa using hr⟩
      | [] => exact absurd rfl hne2
    have hee : isPunctChar e = false := by
      have hew2 : e ∈ w2 := by
        have : e :: es = w2 ++ r := he ▸ hr
        match w2 with
        | [] => exact absurd rfl hne2
        | c :: cs =>
          have : e = c := by simpa using congrArg (fun l => l.headI) this
          simp [this]
      have := (hgood2 e hew2).1
      simp [isGoodChar] at this
      exact this.1
    have hsp1 : splitPunct ('-' :: joinWords (w2 :: ws)) =
        [] :: splitPunct (joinWords (w2 :: ws)) := by
      rw [he]
      exact splitPunct_punct_good (by decide) hee
    obtain ⟨v, vs, hvvs⟩ : ∃ v vs, splitPunct (joinWords (w2 :: ws)) = v :: vs := by
      match h : splitPunct (joinWords (w2 :: ws)) with
      | [] => exact absurd h (splitPunct_ne_nil _)
      | v :: vs => exact ⟨v, vs, rfl⟩
    have hsp : splitPunct (joinWords (w :: w2 :: ws)) =
        w :: splitPunct (joinWords (w2 :: ws)) := by
      rw [joinWords_cons]
      rw [hvvs]
      have : splitPunct ('-' :: joinWords (w2 :: ws)) = [] :: v :: vs := by
        rw [hsp1, hvvs]
      have happ := splitPunct_good_append hnp this
      simpa using happ
    calc slugWords (joinWords (w :: w2 :: ws))
        = (splitPunct (joinWords (w :: w2 :: ws))).flatMap
            (fun u => pySplit (unidecodeModel u)) := rfl
      _ = pySplit w ++ slugWords (joinWords (w2 :: ws)) := by
          rw [hsp]
          simp [slugWords, unidecodeModel]
      _ = w :: w2 :: ws := by
          rw [pySplit_good_word hne hns, ih]
          rfl

theorem slugifyChars_fixed_chars (l : List Char) :
    ∀ c ∈ slugifyChars l, pyLower c = c ∧ (c = '-' ∨ isGoodChar c = true) := by
  intro c hc
  rcases mem_joinWords hc with rfl | ⟨w, hw, hcw⟩
  · exact ⟨by decide, Or.inl rfl⟩
  · obtain ⟨_, hgood⟩ := slugWords_wordsOk l w hw
    exact ⟨(hgood c hcw).2, Or.inr (hgood c hcw).1⟩

theorem slugifyChars_idem (l : List Char) :
    slugifyChars (slugifyChars l) = slugifyChars l := by
  have hfix : (slugifyChars l).map pyLower = slugifyChars l :=
    map_of_fixed (fun c hc => (slugifyChars_fixed_chars l c hc).1)
  show joinWords (slugWords ((slugifyChars l).map pyLower)) = slugifyChars l
  rw [hfix]
  show joinWords (slugWords (joinWords (slugWords (l.map pyLower)))) = slugifyChars l
  rw [slugWords_joinWords (slugWords_wordsOk l)]
  rfl

/-! ### Lemmas about the content store -/

theorem removeFile_cons (f : List Char × Nat) (fs : Store) (rem : List Char) :
    removeFile (f :: fs) rem =
      if f.1 = rem then removeFile fs rem else f :: removeFile fs rem := by
  by_cases hf : f.1 = rem <;> simp [removeFile, List.filter_cons, hf]

theorem find?_removeFile_ne {fs : Store} {name rem : List Char} (h : name ≠ rem) :
    (removeFile fs rem).find? (fun f => decide (f.1 = name)) =
    fs.find? (fun f => decide (f.1 = name)) := by
  induction fs with
  | nil => rfl
  | cons f fs ih =>
    rw [removeFile_cons]
    by_cases hf : f.1 = rem
    · rw [if_pos hf]
      have hn : ¬(decide (f.1 = name) = true) := by
        simp only [decide_eq_true_eq]
        exact fun he => h (he ▸ hf)
      rw [List.find?_cons_of_neg (p := fun f => decide (f.1 = name)) fs hn]
      exact ih
    · rw [if_neg hf]
      by_cases hm : f.1 = name
      · rw [List.find?_cons_of_pos (p := fun f => decide (f.1 = name)) (removeFile fs rem)
              (by simp [hm]),
            List.find?_cons_of_pos (p := fun f => decide (f.1 = name)) fs (by simp [hm])]
      · rw [List.find?_cons_of_neg (p := fun f => decide (f.1 = name)) (removeFile fs rem)
              (by simp [hm]),
            List.find?_cons_of_neg (p := fun f => decide (f.1 = name)) fs (by simp [hm])]
        exact ih

theorem lookupFile_removeFile_ne {fs : Store} {name rem : List Char} (h : name ≠ rem) :
    lookupFile (removeFile fs rem) name = lookupFile fs name := by
  simp [lookupFile, find?_removeFile_ne h]

theorem lookupFile_removeFile_same (fs : Store) (rem : List Char) :
    lookupFile (removeFile fs rem) rem = none := by
  simp only [lookupFile, Option.map_eq_none']
  rw [List.find?_eq_none]
  intro f hf
  have hmem := List.of_mem_filter hf
  simp only [decide_eq_true_eq] at hmem ⊢
  exact hmem

theorem lookupFile_removeFile_none {fs : Store} {name rem : List Char}
    (h : lookupFile fs name = none) :
    lookupFile (removeFile fs rem) name = none := by
  by_cases he : name = rem
  · exact he ▸ lookupFile_removeFile_same fs rem
  · rw [lookupFile_removeFile_ne he]
    exact h

theorem lookupFile_writeFile_same (fs : Store) (name : List Char) (v : Nat) :
    lookupFile (writeFile fs name v) name = some v := by
  simp only [writeFile, lookupFile, List.find?_append]
  have h1 : (removeFile fs name).find? (fun f => decide (f.1 = name)) = none := by
    rw [List.find?_eq_none]
    intro f hf
    have hmem := List.of_mem_filter hf
    simp only [decide_eq_true_eq] at hmem ⊢
    exact hmem
  have h2 : List.find? (fun f => decide (f.1 = name)) [(name, v)] = some (name, v) := by
    simp [List.find?]
  rw [h1, h2]
  rfl

theorem lookupFile_writeFile_ne {fs : Store} {name w : List Char} (v : Nat)
    (h : name ≠ w) :
    lookupFile (writeFile fs w v) name = lookupFile fs name := by
  simp only [writeFile, lookupFile, List.find?_append, find?_removeFile_ne h]
  cases hf : fs.find? (fun f => decide (f.1 = name)) with
  | none =>
    have h2 : List.find? (fun f => decide (f.1 = name)) [(w, v)] = none := by
      rw [List.find?_eq_none]
      intro x hx
      simp at hx
      simp [hx]
      exact fun he => h he.symm
    rw [h2]
    rfl
  | some f => rfl

/-! ### Lemmas about `splitext` and the generated names -/

theorem lastDotSuffix_none {s : List Char} (h : lastDotSuffix s = none) :
    ∀ c ∈ s, c ≠ '.' := by
  induction s with
  | nil => simp
  | cons c cs ih =>
    unfold lastDotSuffix at h
    intro x hx
    rcases List.mem_cons.mp hx with rfl | hx
    · intro he
      subst he
      cases hh : lastDotSuffix cs <;> simp [hh] at h
    · cases hh : lastDotSuffix cs with
      | none => exact ih hh x hx
      | some e => simp [hh] at h

theorem lastDotSuffix_shape {s e : List Char} (h : lastDotSuffix s = some e) :
    ∃ r, e = '.' :: r ∧ ∀ c ∈ r, c ≠ '.' := by
  induction s generalizing e with
  | nil => simp [lastDotSuffix] at h
  | cons c cs ih =>
    unfold lastDotSuffix at h
    cases hh : lastDotSuffix cs with
    | some e1 =>
      rw [hh] at h
      cases h
      exact ih hh
    | none =>
      rw [hh] at h
      by_cases hc : c = '.'
      · rw [if_pos hc] at h
        cases h
        exact ⟨cs, by rw [hc], lastDotSuffix_none hh⟩
      · rw [if_neg hc] at h
        cases h

theorem splitextExt_shape (s : List Char) :
    splitextExt s = [] ∨ ∃ r, splitextExt s = '.' :: r ∧ ∀ c ∈ r, c ≠ '.' := by
  cases hh : lastDotSuffix s with
  | none => exact Or.inl (by simp [splitextExt, hh])
  | some e =>
    obtain ⟨r, rfl, hr⟩ := lastDotSuffix_shape hh
    simp only [splitextExt, hh]
    split
    · exact Or.inl rfl
    · exact Or.inr ⟨r, rfl, hr⟩

theorem splitextExt_ne_thumbSuffix (s : List Char) : splitextExt s ≠ thumbSuffix := by
  rcases splitextExt_shape s with h | ⟨r, h, hr⟩
  · rw [h]
    simp [thumbSuffix]
  · rw [h]
    intro he
    have hr' : r = ['t', 'h', 'u', 'm', 'b', '.', 'j', 'p', 'g'] := by
      have h2 := he
      simp [thumbSuffix] at h2
      exact h2
    exact hr '.' (by simp [hr']) rfl

theorem uuidStr_no_dot (n : Nat) : ∀ c ∈ uuidStr n, c ≠ '.' := by
  intro c hc
  have hc' := List.eq_of_mem_replicate hc
  subst hc'
  decide

theorem uuidStr_injective {m n : Nat} (h : uuidStr m = uuidStr n) : m = n := by
  have hl := congrArg List.length h
  simpa [uuidStr] using hl

/-- Splitting a concatenation whose left part is dot-free and whose right
part is empty or starts with a dot is unambiguous. -/
theorem dotfree_append_inj {s1 s2 a b : List Char}
    (h1 : ∀ c ∈ s1, c ≠ '.') (h2 : ∀ c ∈ s2, c ≠ '.')
    (ha : a = [] ∨ ∃ r, a = '.' :: r) (hb : b = [] ∨ ∃ r, b = '.' :: r)
    (heq : s1 ++ a = s2 ++ b) : s1 = s2 ∧ a = b := by
  induction s1 generalizing s2 with
  | nil =>
    match s2 with
    | [] => exact ⟨rfl, heq⟩
    | d :: ds =>
      exfalso
      rcases ha with rfl | ⟨r, rfl⟩
      · cases heq
      · have : '.' = d := by simpa using congrArg (fun l => l.headI) heq
        exact h2 d (List.mem_cons_self _ _) this.symm
  | cons c cs ih =>
    match s2 with
    | [] =>
      exfalso
      rcases hb with rfl | ⟨r, rfl⟩
      · cases heq
      · have : c = '.' := by simpa using congrArg (fun l => l.headI) heq
        exact h1 c (List.mem_cons_self _ _) this
    | d :: ds =>
      have hcd : c = d := by simpa using congrArg (fun l => l.headI) heq
      subst hcd
      have htl : cs ++ a = ds ++ b := by simpa using congrArg List.tail heq
      obtain ⟨e1, e2⟩ := ih (fun x hx => h1 x (List.mem_cons_of_mem _ hx))
        (fun x hx => h2 x (List.mem_cons_of_mem _ hx)) htl
      exact ⟨by rw [e1], e2⟩


/-! ## Claim C4: the `slugify` output alphabet and idempotency -/

/-- **C4, counterexample.**  The claim states that for every input `x` the
output of `slugify x` matches `^[a-z0-9-]*$` and `slugify` is idempotent.
At the concrete input `"a+b"` this fails: `+` is not in the `_punct_re`
character class, so `slugify "a+b" = "a+b"`, which contains `+` and does not
match the claimed regex. -/
theorem slugify_c4_counterexample :
    ¬((slugifyChars ['a', '+', 'b']).all isSlugOutChar = true ∧
      slugifyChars (slugifyChars ['a', '+', 'b']) = slugifyChars ['a', '+', 'b']) := by
  decide

/-- **C4 (amended).**  For every ASCII input, every character of the
`slugify` output is fixed by lower-casing (no upper-case letters survive)
and is either the separator `-` or a character outside the separator
classes (so no punctuation-class or whitespace character survives) — but
characters such as `+`, `:`, `;`, `~` can survive, so the output need not
match `^[a-z0-9-]*$`; and `slugify` is idempotent:
`slugify (slugify x) = slugify x`. -/
theorem slugify_c4_amended (l : List Char) (_hA : ∀ c ∈ l, isAscii c = true) :
    (∀ c ∈ slugifyChars l, pyLower c = c ∧ (c = '-' ∨ isGoodChar c = true)) ∧
    slugifyChars (slugifyChars l) = slugifyChars l :=
  ⟨slugifyChars_fixed_chars l, slugifyChars_idem l⟩

/-- Witness for C4 (amended) at the concrete ASCII input `"A+ b"`. -/
theorem slugify_c4_amended_witness :
    slugifyChars (slugifyChars ['A', '+', ' ', 'b']) = slugifyChars ['A', '+', ' ', 'b'] :=
  (slugify_c4_amended ['A', '+', ' ', 'b'] (by decide)).2

/-! ## Claim C3: uploads with a disallowed extension have no side effect -/

/-- **C3.**  When the extension of the uploaded file's name is not in the
configured allow-list, `upload` fails validation and returns with the state
— the content store and all catalog rows — exactly as before the call: no
file is written and no row is added. -/
theorem upload_c3_reject_no_side_effect (allowedExts : List (List Char))
    (thumbSize : Nat) (st : St) (inp : UploadInput) (commitOk : Bool)
    (h : fileExtOf inp.clientFilename ∉ allowedExts) :
    uploadOp allowedExts thumbSize st inp commitOk = (st, .error .validation) := by
  have hany : (allowedExts.any fun e => decide (e = fileExtOf inp.clientFilename)) = false := by
    rw [List.any_eq_false]
    intro e he
    simp only [decide_eq_true_eq]
    exact fun hee => h (hee ▸ he)
  unfold uploadOp
  rw [hany]
  rfl

/-- Witness for C3: uploading a `.png` when only `.jpg` is allowed leaves
the empty initial state untouched. -/
theorem upload_c3_witness :
    uploadOp [['.', 'j', 'p', 'g']] 200 ⟨0, 1, 1, [], [], []⟩
        ⟨['x', '.', 'p', 'n', 'g'], 5, 1, none, none⟩ true =
      (⟨0, 1, 1, [], [], []⟩, .error .validation) :=
  upload_c3_reject_no_side_effect [['.', 'j', 'p', 'g']] 200 ⟨0, 1, 1, [], [], []⟩
    ⟨['x', '.', 'p', 'n', 'g'], 5, 1, none, none⟩ true (by decide)

/-! ## Claim C5: duplicate category slugs are a conflict, never an overwrite -/

/-- **C5.**  If a category creation succeeds and a second creation resolves
(by explicit slug or by `slugify` of its name) to the same slug, the second
creation fails with the duplicate-slug conflict error, the state is
returned unchanged (no overwrite), and the first category is still in the
store. -/
theorem addCategory_c5_duplicate_slug (st st1 : St) (n1 s1 n2 s2 : List Char)
    (cat1 : Category)
    (h1 : addCategoryOp st n1 s1 = (st1, .ok cat1))
    (hslug : resolveSlug n2 s2 = cat1.slug)
    (hname : dataRequired n2 = true) :
    addCategoryOp st1 n2 s2 = (st1, .error .conflict) ∧ cat1 ∈ st1.categories := by
  unfold addCategoryOp at h1
  by_cases hd1 : dataRequired n1 = true
  case neg => simp [hd1] at h1
  rw [if_neg (by simp [hd1])] at h1
  by_cases hre : matchesCatSlugRe (resolveSlug n1 s1) = true
  case neg => simp [hre] at h1
  rw [if_neg (by simp [hre])] at h1
  by_cases hconf : (st.categories.any fun c => decide (c.slug = resolveSlug n1 s1)) = true
  case pos => simp [hconf] at h1
  rw [if_neg (by simp [hconf])] at h1
  have hst1 : st1 = { st with categories := st.categories ++ [⟨st.nextCatId, resolveSlug n1 s1, n1⟩],
                              nextCatId := st.nextCatId + 1 } := by
    have := congrArg Prod.fst h1
    simpa using this.symm
  have hcat1 : cat1 = ⟨st.nextCatId, resolveSlug n1 s1, n1⟩ := by
    have := congrArg Prod.snd h1
    simp only [Except.ok.injEq] at this
    exact this.symm
  have hmem : cat1 ∈ st1.categories := by
    rw [hst1, hcat1]
    simp
  refine ⟨?_, hmem⟩
  have hconf2 : (st1.categories.any fun c => decide (c.slug = resolveSlug n2 s2)) = true := by
    rw [List.any_eq_true]
    refine ⟨cat1, hmem, ?_⟩
    simp [hslug]
  have hre2 : matchesCatSlugRe (resolveSlug n2 s2) = true := by
    rw [hslug, hcat1]
    exact hre
  unfold addCategoryOp
  rw [if_neg (by simp [hname]), if_neg (by simp [hre2]), if_pos (by simp [hconf2])]

/-- Witness for C5: creating `"a"` twice (slug left blank both times, so it
resolves via `slugify` to `"a"`) makes the second creation fail with the
conflict error while the first category stays in the store. -/
theorem addCategory_c5_witness :
    addCategoryOp ⟨0, 1, 2, [⟨1, ['a'], ['a']⟩], [], []⟩ ['a'] [] =
      (⟨0, 1, 2, [⟨1, ['a'], ['a']⟩], [], []⟩, .error .conflict) ∧
    (⟨1, ['a'], ['a']⟩ : Category) ∈
      (⟨0, 1, 2, [⟨1, ['a'], ['a']⟩], [], []⟩ : St).categories :=
  addCategory_c5_duplicate_slug ⟨0, 1, 1, [], [], []⟩ ⟨0, 1, 2, [⟨1, ['a'], ['a']⟩], [], []⟩
    ['a'] [] ['a'] [] ⟨1, ['a'], ['a']⟩ rfl (by decide) (by decide)

/-! ## Claim C1: no compensating cleanup after a failed row insert -/

/-- **C1, counterexample.**  The claim states that when the `Picture` row
insert fails after both artifact files were written, `upload` deletes the
two orphaned files before propagating the error.  In the code the
`db.session.commit()` call is not wrapped in any handler, so nothing deletes
the files: at this concrete input the commit fails, the error propagates,
and both files are still in the content store. -/
theorem upload_c1_counterexample :
    (let r := uploadOp [['.', 'j', 'p', 'g']] 200 ⟨0, 1, 1, [], [], []⟩
        ⟨['c', '.', 'j', 'p', 'g'], 7, 1, none, none⟩ false
     r.2 = .error Err.dbFail ∧
     lookupFile r.1.files (uuidStr 0 ++ ['.', 'j', 'p', 'g']) = some 7 ∧
     lookupFile r.1.files (uuidStr 0 ++ thumbSuffix) = some (deriveThumb 7 200)) := by
  decide

/-- **C1 (amended).**  For every upload that passes validation and whose
row persistence fails, the error propagates (`.dbFail`), no row is added,
and the two artifact files written by the upload *remain* in the content
store — no compensating deletion is performed. -/
theorem upload_c1_amended (allowedExts : List (List Char)) (thumbSize : Nat)
    (st : St) (inp : UploadInput)
    (hext : fileExtOf inp.clientFilename ∈ allowedExts)
    (hep : ∀ e, inp.episode = some e → 1 ≤ e) :
    ∃ st', uploadOp allowedExts thumbSize st inp false = (st', .error .dbFail) ∧
      st'.pictures = st.pictures ∧
      lookupFile st'.files
          (uuidStr st.nextUuid ++ fileExtOf (secureFilenameModel inp.clientFilename)) =
        some inp.content ∧
      lookupFile st'.files (uuidStr st.nextUuid ++ thumbSuffix) =
        some (deriveThumb inp.content thumbSize) := by
  have hne : uuidStr st.nextUuid ++ fileExtOf (secureFilenameModel inp.clientFilename) ≠
             uuidStr st.nextUuid ++ thumbSuffix := by
    intro he
    exact splitextExt_ne_thumbSuffix _ (List.append_cancel_left he)
  have hany : (allowedExts.any fun e => decide (e = fileExtOf inp.clientFilename)) = true := by
    rw [List.any_eq_true]
    exact ⟨_, hext, by simp⟩
  have hepb : (match inp.episode with | some e => decide (e < 1) | none => false) = false := by
    cases hi : inp.episode with
    | none => rfl
    | some e =>
      have h1 := hep e hi
      simp only [decide_eq_false_iff_not]
      omega
  let files2 : Store :=
    writeFile
      (writeFile st.files (uuidStr st.nextUuid ++ thumbSuffix)
        (deriveThumb inp.content thumbSize))
      (uuidStr st.nextUuid ++ fileExtOf (secureFilenameModel inp.clientFilename))
      inp.content
  refine ⟨{ st with nextUuid := st.nextUuid + 1, files := files2 }, ?_, rfl, ?_, ?_⟩
  · unfold uploadOp
    rw [hany, hepb]
    rfl
  · exact lookupFile_writeFile_same _ _ _
  · rw [lookupFile_writeFile_ne _ (Ne.symm hne)]
    exact lookupFile_writeFile_same _ _ _

/-- Witness for C1 (amended) at a concrete upload. -/
theorem upload_c1_amended_witness :
    ∃ st', uploadOp [['.', 'j', 'p', 'g']] 200 ⟨0, 1, 1, [], [], []⟩
        ⟨['c', '.', 'j', 'p', 'g'], 7, 1, none, none⟩ false = (st', .error .dbFail) ∧
      st'.pictures = [] ∧
      lookupFile st'.files
          (uuidStr 0 ++ fileExtOf (secureFilenameModel ['c', '.', 'j', 'p', 'g'])) =
        some 7 ∧
      lookupFile st'.files (uuidStr 0 ++ thumbSuffix) = some (deriveThumb 7 200) :=
  upload_c1_amended [['.', 'j', 'p', 'g']] 200 ⟨0, 1, 1, [], [], []⟩
    ⟨['c', '.', 'j', 'p', 'g'], 7, 1, none, none⟩ (by decide) (by intro e he; cases he)

/-! ## Claim C2: deletion removes the row but never the artifact files -/

/-- **C2, counterexample.**  The claim states that `delete` removes the row
*and then deletes both artifact files*.  The code only deletes the row: at
this concrete state the deletion reports success and both artifact files
are still in the content store. -/
theorem delete_c2_counterexample :
    (let st : St := ⟨1, 2, 1, [], [⟨1, none, none, ['a'], none, ['b'], none⟩],
                     [(['a'], 7), (['b'], 9)]⟩
     (deleteOp st 1).2 = .ok () ∧
     lookupFile (deleteOp st 1).1.files ['a'] = some 7 ∧
     lookupFile (deleteOp st 1).1.files ['b'] = some 9) := by
  decide

/-- **C2 (amended).**  Deleting an existing picture succeeds, leaves the
content store (and the category table) untouched — the artifact files are
never deleted — and a subsequent `show`/`getPicture` of the same id reports
the not-found error. -/
theorem delete_c2_amended (st : St) (id : Nat) (p : Pic)
    (h : st.pictures.find? (fun q => decide (q.id = id)) = some p) :
    ∃ st', deleteOp st id = (st', .ok ()) ∧ st'.files = st.files ∧
      st'.categories = st.categories ∧ showOp st' id = .error .notFound := by
  refine ⟨{ st with pictures := st.pictures.filter (fun q => decide (q.id ≠ id)) },
          ?_, rfl, rfl, ?_⟩
  · unfold deleteOp
    rw [h]
  · unfold showOp
    have hnone : (st.pictures.filter (fun q => decide (q.id ≠ id))).find?
        (fun q => decide (q.id = id)) = none := by
      rw [List.find?_eq_none]
      intro q hq
      have hmem := List.of_mem_filter hq
      simp only [decide_eq_true_eq] at hmem ⊢
      exact hmem
    rw [hnone]

/-- Witness for C2 (amended) at a concrete one-picture state. -/
theorem delete_c2_amended_witness :
    ∃ st', deleteOp ⟨1, 2, 1, [], [⟨1, none, none, ['a'], none, ['b'], none⟩],
        [(['a'], 7), (['b'], 9)]⟩ 1 = (st', .ok ()) ∧
      st'.files = [(['a'], 7), (['b'], 9)] ∧ st'.categories = [] ∧
      showOp st' 1 = .error .notFound :=
  delete_c2_amended ⟨1, 2, 1, [], [⟨1, none, none, ['a'], none, ['b'], none⟩],
      [(['a'], 7), (['b'], 9)]⟩ 1 ⟨1, none, none, ['a'], none, ['b'], none⟩ (by decide)

/-! ## Claim C7: `random` on an empty catalog -/

/-- **C7, counterexample.**  The claim states that `random()` on an empty
catalog fails with the `EmptyCatalog` not-found error.  The code indexes
the query result with `[0]` without any guard, so on an empty catalog it
raises an uncaught `IndexError` (an internal server error), which is not
the not-found error. -/
theorem random_c7_counterexample :
    randomOp ⟨0, 1, 1, [], [], []⟩ 0 = .error Err.indexError ∧
    Err.indexError ≠ Err.notFound := by
  decide

/-- **C7 (amended).**  `random()` on an empty catalog fails with an uncaught
`IndexError` (not a not-found error); on every non-empty catalog it returns
a picture that is a member of the catalog. -/
theorem random_c7_amended (st : St) (pick : Nat) :
    (st.pictures = [] → randomOp st pick = .error .indexError) ∧
    (st.pictures ≠ [] → ∃ p, randomOp st pick = .ok p ∧ p ∈ st.pictures) := by
  constructor
  · intro h
    simp [randomOp, h]
  · intro h
    match hp : st.pictures with
    | [] => exact absurd hp h
    | p :: ps =>
      refine ⟨(p :: ps).get ⟨pick % (p :: ps).length, Nat.mod_lt _ (Nat.succ_pos _)⟩, ?_, ?_⟩
      · simp [randomOp, hp]
      · exact List.get_mem _ _ _

/-! ### Lemmas about pagination -/

/-- `ceilDivM count per` is the exact rational ceiling of `count / per`:
it is the least `t` with `count <= per * t`. -/
theorem ceilDivM_spec {c P : Nat} (hP : 0 < P) :
    c ≤ P * ceilDivM c P ∧ P * ceilDivM c P < c + P := by
  unfold ceilDivM
  have hdm := Nat.div_add_mod (c + P - 1) P
  have hlt : (c + P - 1) % P < P := Nat.mod_lt _ hP
  set q := (c + P - 1) / P with hq
  set r := (c + P - 1) % P with hr
  set x := P * q with hx
  omega

theorem listOp_eq {perPage : Nat} {cats : List Category} {pics : List Pic}
    {slugF : Option (List Char)} {epF : Option Int} {ms : List Pic}
    (hms : matchedPics cats pics slugF epF = some ms) (page : Int) :
    listOp perPage cats pics slugF epF page =
      if ((page - 1) * perPage : Int) > (ms.length : Int) then .error .notFound
      else .ok (querySlice (orderByIdDesc ms) ((page - 1) * perPage) (page * perPage),
                ceilDivM ms.length perPage) := by
  unfold listOp
  rw [hms]

theorem length_orderByIdDesc (l : List Pic) : (orderByIdDesc l).length = l.length :=
  (List.perm_insertionSort descById l).length_eq

theorem sorted_orderByIdDesc (l : List Pic) : (orderByIdDesc l).Pairwise descById :=
  List.sorted_insertionSort descById l

theorem querySlice_nonneg {α : Type} (l : List α) {a b : Int} (ha : 0 ≤ a)
    (hab : a < b) :
    querySlice l a b = (l.drop a.toNat).take (b - a).toNat := by
  unfold querySlice
  rw [if_neg (by omega)]
  rw [if_neg ?_]
  simp only [Bool.or_eq_true, decide_eq_true_eq]
  omega

/-- Witness for C7 (amended) at a concrete one-picture state. -/
theorem random_c7_amended_witness :
    ∃ p, randomOp ⟨1, 2, 1, [], [⟨1, none, none, ['a'], none, ['b'], none⟩],
        []⟩ 5 = .ok p ∧
      p ∈ (⟨1, 2, 1, [], [⟨1, none, none, ['a'], none, ['b'], none⟩], []⟩ : St).pictures :=
  (random_c7_amended ⟨1, 2, 1, [], [⟨1, none, none, ['a'], none, ['b'], none⟩], []⟩ 5).2
    (by decide)

/-! ## Claim C6: page total, out-of-range failure, and the 25/10 scenario -/

/-- **C6.**  For every catalog state and (resolvable) filter: every
successful `list` reports `totalPages = ceil(matchCount / pageSize)` (the
exact ceiling, characterised by `count <= pageSize * total < count +
pageSize`); a page whose 1-based start offset `(page-1)*pageSize` strictly
exceeds the match count fails with the not-found (`PageOutOfRange`) error;
and with `pageSize = 10` and 25 matches, page 4 fails while page 3 returns
exactly 5 items with `totalPages = 3`, ordered by descending id — ids are
the autoincrement primary key, so this is most-recently-created first, and
as ids are unique the "ties broken by id" clause is subsumed. -/
theorem list_c6_pagination (perPage : Nat) (cats : List Category)
    (pics : List Pic) (slugF : Option (List Char)) (epF : Option Int)
    (ms : List Pic) (hP : 0 < perPage)
    (hms : matchedPics cats pics slugF epF = some ms) :
    (∀ (page : Int) (items : List Pic) (total : Nat),
        listOp perPage cats pics slugF epF page = .ok (items, total) →
        total = ceilDivM ms.length perPage ∧
        ms.length ≤ perPage * total ∧ perPage * total < ms.length + perPage) ∧
    (∀ page : Int, ((page - 1) * perPage : Int) > (ms.length : Int) →
        listOp perPage cats pics slugF epF page = .error .notFound) ∧
    (perPage = 10 → ms.length = 25 →
      listOp perPage cats pics slugF epF 4 = .error .notFound ∧
      ∃ items, listOp perPage cats pics slugF epF 3 = .ok (items, 3) ∧
        items.length = 5 ∧ items.Pairwise descById) := by
  refine ⟨?_, ?_, ?_⟩
  · intro page items total h
    rw [listOp_eq hms] at h
    split at h
    · cases h
    · rw [Except.ok.injEq, Prod.mk.injEq] at h
      obtain ⟨-, htot⟩ := h
      exact ⟨htot.symm, htot ▸ ceilDivM_spec hP⟩
  · intro page hgt
    rw [listOp_eq hms, if_pos hgt]
  · intro h10 h25
    subst h10
    constructor
    · rw [listOp_eq hms, if_pos (by rw [h25]; norm_num)]
    · refine ⟨querySlice (orderByIdDesc ms) ((3 - 1) * 10) (3 * 10), ?_, ?_, ?_⟩
      · rw [listOp_eq hms, if_neg (by rw [h25]; norm_num)]
        rw [h25]
        rfl
      · rw [querySlice_nonneg _ (by norm_num) (by norm_num)]
        rw [List.length_take, List.length_drop, length_orderByIdDesc, h25]
        rfl
      · rw [querySlice_nonneg _ (by norm_num) (by norm_num)]
        exact List.Pairwise.sublist
          ((List.take_sublist _ _).trans (List.drop_sublist _ _))
          (sorted_orderByIdDesc ms)

/-- Witness for C6 at a concrete 25-picture catalog with no filter. -/
theorem list_c6_witness :
    (let pics25 := (List.range 25).map
      (fun i => (⟨i + 1, none, none, ['f'], none, ['t'], none⟩ : Pic))
     listOp 10 [] pics25 none none 4 = .error .notFound ∧
     ∃ items, listOp 10 [] pics25 none none 3 = .ok (items, 3) ∧
       items.length = 5 ∧ items.Pairwise descById) :=
  (list_c6_pagination 10 [] _ none none _ (by norm_num) rfl).2.2 rfl (by simp)

/-! ## Claim C10: the out-of-range check is strict and one-sided -/

/-- **C10.**  `list` fails with the out-of-range error only when
`(page-1)*pageSize` is *strictly* greater than the match count: a page
whose start offset is at most the count succeeds, a start offset exactly
equal to the count yields an empty item list, page 1 on an empty catalog
succeeds with zero items and `totalPages = 0`, and non-positive pages are
never rejected (the slice bounds simply go non-positive). -/
theorem list_c10_strict_range (perPage : Nat) (cats : List Category)
    (pics : List Pic) (slugF : Option (List Char)) (epF : Option Int)
    (ms : List Pic) (hP : 0 < perPage)
    (hms : matchedPics cats pics slugF epF = some ms) :
    (∀ page : Int, ((page - 1) * perPage : Int) ≤ (ms.length : Int) →
        ∃ items, listOp perPage cats pics slugF epF page =
          .ok (items, ceilDivM ms.length perPage)) ∧
    (∀ page : Int, ((page - 1) * perPage : Int) = (ms.length : Int) →
        listOp perPage cats pics slugF epF page =
          .ok ([], ceilDivM ms.length perPage)) ∧
    (∀ page : Int, page ≤ 0 →
        ∃ items, listOp perPage cats pics slugF epF page =
          .ok (items, ceilDivM ms.length perPage)) ∧
    (ms = [] → listOp perPage cats pics slugF epF 1 = .ok ([], 0)) := by
  have hok : ∀ page : Int, ((page - 1) * perPage : Int) ≤ (ms.length : Int) →
      ∃ items, listOp perPage cats pics slugF epF page =
        .ok (items, ceilDivM ms.length perPage) := by
    intro page hle
    exact ⟨_, by rw [listOp_eq hms, if_neg (by omega)]⟩
  refine ⟨hok, ?_, ?_, ?_⟩
  · intro page heq
    rw [listOp_eq hms, if_neg (by omega)]
    have hb : (page * perPage : Int) = (page - 1) * perPage + perPage := by ring
    have hslice : querySlice (orderByIdDesc ms) ((page - 1) * perPage) (page * perPage)
        = [] := by
      rw [querySlice_nonneg _ (by omega) (by omega)]
      have hdrop : (orderByIdDesc ms).drop ((page - 1) * perPage).toNat = [] := by
        apply List.drop_eq_nil_of_le
        rw [length_orderByIdDesc]
        omega
      rw [hdrop, List.take_nil]
    rw [hslice]
  · intro page hle
    apply hok
    have : ((page - 1) * perPage : Int) ≤ 0 := by
      have h1 : (page - 1 : Int) ≤ -1 := by omega
      have h2 : (0 : Int) ≤ perPage := by positivity
      nlinarith
    omega
  · intro hnil
    subst hnil
    have h0 : ceilDivM (List.length (α := Pic) []) perPage = 0 := by
      show ceilDivM 0 perPage = 0
      unfold ceilDivM
      exact Nat.div_eq_of_lt (by omega)
    have := hok 1 (by simp)
    obtain ⟨items, hi⟩ := this
    rw [listOp_eq hms, if_neg (by simp)] at hi ⊢
    have hslice : querySlice (orderByIdDesc []) ((1 - 1) * perPage) (1 * perPage) = [] := by
      rw [querySlice_nonneg _ (by norm_num) (by simpa using hP)]
      simp [orderByIdDesc, List.insertionSort]
    rw [hslice, h0]

/-- Witness for C10: page 1 on the empty catalog succeeds with zero items
and zero total pages. -/
theorem list_c10_witness :
    listOp 10 [] [] none none 1 = .ok ([], 0) :=
  (list_c10_strict_range 10 [] [] none none [] (by norm_num) rfl).2.2.2 rfl

/-! ## Claim C9: generated names are fresh and never collide -/

/-- Inversion of a successful upload: the stored names are built from the
state's fresh-identifier draw, and the draw counter advances. -/
theorem uploadOp_ok_fields {allowedExts : List (List Char)} {thumbSize : Nat}
    {st st' : St} {inp : UploadInput} {commitOk : Bool} {pic : Pic}
    (h : uploadOp allowedExts thumbSize st inp commitOk = (st', .ok pic)) :
    pic.filename = uuidStr st.nextUuid ++ fileExtOf (secureFilenameModel inp.clientFilename) ∧
    pic.thumbnail = uuidStr st.nextUuid ++ thumbSuffix ∧
    st'.nextUuid = st.nextUuid + 1 := by
  unfold uploadOp at h
  by_cases h1 : (allowedExts.any fun e => decide (e = fileExtOf inp.clientFilename)) = true
  case neg => rw [if_pos (by simp [h1])] at h; simp at h
  rw [if_neg (by simp [h1])] at h
  by_cases h2 : (match inp.episode with | some e => decide (e < 1) | none => false) = true
  case pos => rw [if_pos h2] at h; simp at h
  rw [if_neg h2] at h
  cases hok : commitOk
  · rw [hok] at h
    simp at h
  · rw [hok] at h
    rw [if_pos rfl] at h
    rw [Prod.mk.injEq, Except.ok.injEq] at h
    obtain ⟨hst, hpic⟩ := h
    refine ⟨?_, ?_, ?_⟩
    · rw [← hpic]
    · rw [← hpic]
    · rw [← hst]

/-- A name of the shape required by `dotfree_append_inj`: the empty
extension or a dot-led suffix. -/
theorem splitextExt_dot_or_nil (s : List Char) :
    splitextExt s = [] ∨ ∃ r, splitextExt s = '.' :: r := by
  rcases splitextExt_shape s with h | ⟨r, h, -⟩
  · exact Or.inl h
  · exact Or.inr ⟨r, h⟩

/-- **C9.**  The stored `filename` and `thumbnail` of every successfully
uploaded picture are built from a freshly drawn identifier: (i) within one
upload the two names are distinct; (ii) the generated identifier does not
depend on any user-supplied input — two uploads from the same state produce
the same thumbnail name whatever their inputs; (iii) two successive
successful uploads (even of the same source picture) produce four pairwise
distinct stored names — identifiers are never reused. -/
theorem upload_c9_fresh_identifiers (allowedExts : List (List Char)) (thumbSize : Nat) :
    (∀ st inp commitOk st' pic,
        uploadOp allowedExts thumbSize st inp commitOk = (st', .ok pic) →
        pic.filename ≠ pic.thumbnail) ∧
    (∀ st inpA inpB okA okB stA stB picA picB,
        uploadOp allowedExts thumbSize st inpA okA = (stA, .ok picA) →
        uploadOp allowedExts thumbSize st inpB okB = (stB, .ok picB) →
        picA.thumbnail = picB.thumbnail) ∧
    (∀ st inp1 inp2 st1 st2 pic1 pic2,
        uploadOp allowedExts thumbSize st inp1 true = (st1, .ok pic1) →
        uploadOp allowedExts thumbSize st1 inp2 true = (st2, .ok pic2) →
        pic1.filename ≠ pic2.filename ∧ pic1.thumbnail ≠ pic2.thumbnail ∧
        pic1.filename ≠ pic2.thumbnail ∧ pic2.filename ≠ pic1.thumbnail) := by
  have hthumbShape : ∃ r, thumbSuffix = '.' :: r := ⟨_, rfl⟩
  refine ⟨?_, ?_, ?_⟩
  · intro st inp commitOk st' pic h
    obtain ⟨hf, ht, -⟩ := uploadOp_ok_fields h
    rw [hf, ht]
    intro he
    exact splitextExt_ne_thumbSuffix _ (List.append_cancel_left he)
  · intro st inpA inpB okA okB stA stB picA picB hA hB
    obtain ⟨-, htA, -⟩ := uploadOp_ok_fields hA
    obtain ⟨-, htB, -⟩ := uploadOp_ok_fields hB
    rw [htA, htB]
  · intro st inp1 inp2 st1 st2 pic1 pic2 h1 h2
    obtain ⟨hf1, ht1, hu1⟩ := uploadOp_ok_fields h1
    obtain ⟨hf2, ht2, -⟩ := uploadOp_ok_fields h2
    rw [hu1] at hf2 ht2
    have hstem : uuidStr st.nextUuid ≠ uuidStr (st.nextUuid + 1) := by
      intro he
      have := uuidStr_injective he
      omega
    have hd1 := uuidStr_no_dot st.nextUuid
    have hd2 := uuidStr_no_dot (st.nextUuid + 1)
    refine ⟨?_, ?_, ?_, ?_⟩
    · rw [hf1, hf2]
      intro he
      exact hstem (dotfree_append_inj hd1 hd2 (splitextExt_dot_or_nil _)
        (splitextExt_dot_or_nil _) he).1
    · rw [ht1, ht2]
      intro he
      exact hstem (dotfree_append_inj hd1 hd2 (Or.inr hthumbShape)
        (Or.inr hthumbShape) he).1
    · rw [hf1, ht2]
      intro he
      exact hstem (dotfree_append_inj hd1 hd2 (splitextExt_dot_or_nil _)
        (Or.inr hthumbShape) he).1
    · rw [hf2, ht1]
      intro he
      exact hstem ((dotfree_append_inj hd2 hd1 (splitextExt_dot_or_nil _)
        (Or.inr hthumbShape) he).1).symm

/-- Witness for C9 at two concrete successive uploads of the same source
picture: the four stored names are pairwise distinct. -/
theorem upload_c9_witness :
    (['u', '.', 'j', 'p', 'g'] : List Char) ≠ ['u', 'u', '.', 'j', 'p', 'g'] ∧
    (['u', '.', 't', 'h', 'u', 'm', 'b', '.', 'j', 'p', 'g'] : List Char) ≠
      ['u', 'u', '.', 't', 'h', 'u', 'm', 'b', '.', 'j', 'p', 'g'] ∧
    (['u', '.', 'j', 'p', 'g'] : List Char) ≠
      ['u', 'u', '.', 't', 'h', 'u', 'm', 'b', '.', 'j', 'p', 'g'] ∧
    (['u', 'u', '.', 'j', 'p', 'g'] : List Char) ≠
      ['u', '.', 't', 'h', 'u', 'm', 'b', '.', 'j', 'p', 'g'] :=
  (upload_c9_fresh_identifiers [['.', 'j', 'p', 'g']] 200).2.2
    ⟨0, 1, 1, [], [], []⟩
    ⟨['c', '.', 'j', 'p', 'g'], 7, 1, none, none⟩
    ⟨['c', '.', 'j', 'p', 'g'], 7, 1, none, none⟩
    ⟨1, 2, 1, [],
      [⟨1, some 1, none, ['u', '.', 'j', 'p', 'g'], some ['c', '.', 'j', 'p', 'g'],
        ['u', '.', 't', 'h', 'u', 'm', 'b', '.', 'j', 'p', 'g'], none⟩],
      [(['u', '.', 't', 'h', 'u', 'm', 'b', '.', 'j', 'p', 'g'], 40007),
       (['u', '.', 'j', 'p', 'g'], 7)]⟩
    ⟨2, 3, 1, [],
      [⟨1, some 1, none, ['u', '.', 'j', 'p', 'g'], some ['c', '.', 'j', 'p', 'g'],
        ['u', '.', 't', 'h', 'u', 'm', 'b', '.', 'j', 'p', 'g'], none⟩,
       ⟨2, some 1, none, ['u', 'u', '.', 'j', 'p', 'g'], some ['c', '.', 'j', 'p', 'g'],
        ['u', 'u', '.', 't', 'h', 'u', 'm', 'b', '.', 'j', 'p', 'g'], none⟩],
      [(['u', '.', 't', 'h', 'u', 'm', 'b', '.', 'j', 'p', 'g'], 40007),
       (['u', '.', 'j', 'p', 'g'], 7),
       (['u', 'u', '.', 't', 'h', 'u', 'm', 'b', '.', 'j', 'p', 'g'], 40007),
       (['u', 'u', '.', 'j', 'p', 'g'], 7)]⟩
    ⟨1, some 1, none, ['u', '.', 'j', 'p', 'g'], some ['c', '.', 'j', 'p', 'g'],
      ['u', '.', 't', 'h', 'u', 'm', 'b', '.', 'j', 'p', 'g'], none⟩
    ⟨2, some 1, none, ['u', 'u', '.', 'j', 'p', 'g'], some ['c', '.', 'j', 'p', 'g'],
      ['u', 'u', '.', 't', 'h', 'u', 'm', 'b', '.', 'j', 'p', 'g'], none⟩
    (by decide) (by decide)

/-! ## Claim C8: the regeneration sweep and missing originals -/

theorem rebuildThumbnail_cons_found {thumbSize : Nat} {p : Pic} {rest : List Pic}
    {files : Store} {v : Nat}
    (hv : lookupFile (removeFile files p.thumbnail) p.filename = some v) :
    rebuildThumbnail thumbSize (p :: rest) files =
      rebuildThumbnail thumbSize rest
        (writeFile (removeFile files p.thumbnail) p.thumbnail (deriveThumb v thumbSize)) := by
  conv_lhs => unfold rebuildThumbnail
  simp only [hv]

theorem rebuildThumbnail_cons_missing {thumbSize : Nat} {p : Pic} {rest : List Pic}
    {files : Store}
    (hv : lookupFile (removeFile files p.thumbnail) p.filename = none) :
    rebuildThumbnail thumbSize (p :: rest) files = .error .ioFail := by
  conv_lhs => unfold rebuildThumbnail
  simp only [hv]

/-- When every picture's original is present (and the stored names do not
collide), the sweep succeeds, every thumbnail is re-derived from its
original, and files that are no picture's thumbnail are untouched. -/
theorem rebuild_success {thumbSize : Nat} {ps : List Pic} {files : Store}
    (hsep : ∀ p ∈ ps, ∀ q ∈ ps, q.thumbnail ≠ p.filename)
    (hthumbs : ps.Pairwise (fun p q => p.thumbnail ≠ q.thumbnail))
    (horig : ∀ p ∈ ps, ∃ v, lookupFile files p.filename = some v) :
    ∃ files', rebuildThumbnail thumbSize ps files = .ok files' ∧
      (∀ name, (∀ q ∈ ps, q.thumbnail ≠ name) →
        lookupFile files' name = lookupFile files name) ∧
      (∀ p ∈ ps, ∀ v, lookupFile files p.filename = some v →
        lookupFile files' p.thumbnail = some (deriveThumb v thumbSize)) := by
  induction ps generalizing files with
  | nil => exact ⟨files, rfl, fun _ _ => rfl, by simp⟩
  | cons p rest ih =>
    have hpmem : p ∈ p :: rest := List.mem_cons_self _ _
    obtain ⟨v, hv⟩ := horig p hpmem
    have hpf_ne : p.filename ≠ p.thumbnail :=
      fun he => hsep p hpmem p hpmem he.symm
    have hv1 : lookupFile (removeFile files p.thumbnail) p.filename = some v := by
      rw [lookupFile_removeFile_ne hpf_ne]
      exact hv
    have hpres2 : ∀ name, name ≠ p.thumbnail →
        lookupFile (writeFile (removeFile files p.thumbnail) p.thumbnail
          (deriveThumb v thumbSize)) name = lookupFile files name := by
      intro name hne
      rw [lookupFile_writeFile_ne _ hne, lookupFile_removeFile_ne hne]
    have horig2 : ∀ q ∈ rest, ∃ w,
        lookupFile (writeFile (removeFile files p.thumbnail) p.thumbnail
          (deriveThumb v thumbSize)) q.filename = some w := by
      intro q hq
      obtain ⟨w, hw⟩ := horig q (List.mem_cons_of_mem _ hq)
      refine ⟨w, ?_⟩
      rw [hpres2 _ (fun he => hsep q (List.mem_cons_of_mem _ hq) p hpmem he.symm)]
      exact hw
    obtain ⟨files', hrec, hpres', hthumbs'⟩ :=
      ih (fun a ha b hb =>
            hsep a (List.mem_cons_of_mem _ ha) b (List.mem_cons_of_mem _ hb))
         (List.Pairwise.sublist (List.sublist_cons_self p rest) hthumbs) horig2
    refine ⟨files', ?_, ?_, ?_⟩
    · rw [rebuildThumbnail_cons_found hv1]
      exact hrec
    · intro name hname
      rw [hpres' name (fun q hq => hname q (List.mem_cons_of_mem _ hq))]
      exact hpres2 name (Ne.symm (hname p hpmem))
    · intro q hq w hw
      rcases List.mem_cons.mp hq with rfl | hq
      · have hvw : w = v := by
          rw [hv] at hw
          exact (Option.some.injEq _ _ ▸ hw).symm
        subst hvw
        rw [hpres' q.thumbnail
              (fun b hb => Ne.symm ((List.pairwise_cons.mp hthumbs).1 b hb))]
        exact lookupFile_writeFile_same _ _ _
      · apply hthumbs' q hq w
        rw [hpres2 _ (fun he => hsep q (List.mem_cons_of_mem _ hq) p hpmem he.symm)]
        exact hw

/-- A picture whose original file is missing aborts the whole sweep with
the uncaught IO error, however many pictures with intact originals precede
it. -/
theorem rebuild_abort {thumbSize : Nat} (pre : List Pic) (bad : Pic)
    (post : List Pic) {files : Store}
    (hsep : ∀ p ∈ pre ++ bad :: post, ∀ q ∈ pre ++ bad :: post,
      q.thumbnail ≠ p.filename)
    (hpre : ∀ p ∈ pre, ∃ v, lookupFile files p.filename = some v)
    (hbad : lookupFile files bad.filename = none) :
    rebuildThumbnail thumbSize (pre ++ bad :: post) files = .error .ioFail := by
  induction pre generalizing files with
  | nil =>
    rw [List.nil_append]
    exact rebuildThumbnail_cons_missing (lookupFile_removeFile_none hbad)
  | cons p pre ih =>
    have hpmem : p ∈ (p :: pre) ++ bad :: post := List.mem_cons_self _ _
    obtain ⟨v, hv⟩ := hpre p (List.mem_cons_self _ _)
    have hpf_ne : p.filename ≠ p.thumbnail :=
      fun he => hsep p hpmem p hpmem he.symm
    have hv1 : lookupFile (removeFile files p.thumbnail) p.filename = some v := by
      rw [lookupFile_removeFile_ne hpf_ne]
      exact hv
    have hpres2 : ∀ name, name ≠ p.thumbnail →
        lookupFile (writeFile (removeFile files p.thumbnail) p.thumbnail
          (deriveThumb v thumbSize)) name = lookupFile files name := by
      intro name hne
      rw [lookupFile_writeFile_ne _ hne, lookupFile_removeFile_ne hne]
    rw [List.cons_append, rebuildThumbnail_cons_found hv1]
    apply ih
    · intro a ha b hb
      exact hsep a (List.mem_cons_of_mem _ ha) b (List.mem_cons_of_mem _ hb)
    · intro q hq
      obtain ⟨w, hw⟩ := hpre q (List.mem_cons_of_mem _ hq)
      refine ⟨w, ?_⟩
      rw [hpres2 _ (fun he =>
        hsep q (List.mem_cons_of_mem _ (List.mem_append_left _ hq)) p hpmem he.symm)]
      exact hw
    · rw [hpres2 _ (fun he =>
        hsep bad (List.mem_cons_of_mem _ (List.mem_append_right _
          (List.mem_cons_self _ _))) p hpmem he.symm)]
      exact hbad

/-- **C8, counterexample.**  The claim states the sweep skips a picture
whose original is missing and continues with the rest.  In the code only
the thumbnail unlink is inside the `try`; the `open` of the original is
not, so at this concrete two-picture catalog — first picture's original
missing, second picture fully intact — the sweep aborts with the uncaught
IO error instead of skipping and regenerating the second picture. -/
theorem rebuild_c8_counterexample :
    rebuildThumbnail 200
      [⟨1, none, none, ['a'], none, ['c'], none⟩,
       ⟨2, none, none, ['b'], none, ['d'], none⟩]
      [(['b'], 5), (['d'], 9)] = .error Err.ioFail := by
  decide

/-- **C8 (amended).**  When every picture's original is present, the sweep
succeeds and re-derives and replaces every thumbnail (missing *thumbnails*
are tolerated: the unlink ignores absence); but any picture whose
*original* is missing aborts the whole sweep with an uncaught IO error at
that picture, regardless of how many intact pictures precede or follow it
— the batch is not continued. -/
theorem rebuild_c8_amended (thumbSize : Nat) :
    (∀ (ps : List Pic) (files : Store),
        (∀ p ∈ ps, ∀ q ∈ ps, q.thumbnail ≠ p.filename) →
        ps.Pairwise (fun p q => p.thumbnail ≠ q.thumbnail) →
        (∀ p ∈ ps, ∃ v, lookupFile files p.filename = some v) →
        ∃ files', rebuildThumbnail thumbSize ps files = .ok files' ∧
          ∀ p ∈ ps, ∀ v, lookupFile files p.filename = some v →
            lookupFile files' p.thumbnail = some (deriveThumb v thumbSize)) ∧
    (∀ (pre : List Pic) (bad : Pic) (post : List Pic) (files : Store),
        (∀ p ∈ pre ++ bad :: post, ∀ q ∈ pre ++ bad :: post,
          q.thumbnail ≠ p.filename) →
        (∀ p ∈ pre, ∃ v, lookupFile files p.filename = some v) →
        lookupFile files bad.filename = none →
        rebuildThumbnail thumbSize (pre ++ bad :: post) files = .error .ioFail) := by
  constructor
  · intro ps files hsep hthumbs horig
    obtain ⟨files', h1, -, h3⟩ := rebuild_success hsep hthumbs horig
    exact ⟨files', h1, h3⟩
  · intro pre bad post files hsep hpre hbad
    exact rebuild_abort pre bad post hsep hpre hbad

/-- Witness for C8 (amended): a one-picture catalog with an intact original
is fully regenerated, and the two-picture catalog of the counterexample
aborts. -/
theorem rebuild_c8_amended_witness :
    (∃ files', rebuildThumbnail 200 [⟨1, none, none, ['a'], none, ['c'], none⟩]
        [(['a'], 5)] = .ok files' ∧
      ∀ p ∈ [(⟨1, none, none, ['a'], none, ['c'], none⟩ : Pic)], ∀ v,
        lookupFile [(['a'], 5)] p.filename = some v →
        lookupFile files' p.thumbnail = some (deriveThumb v 200)) ∧
    rebuildThumbnail 200
      [⟨1, none, none, ['a'], none, ['c'], none⟩,
       ⟨2, none, none, ['b'], none, ['d'], none⟩]
      [(['b'], 5), (['d'], 9)] = .error .ioFail := by
  constructor
  · exact (rebuild_c8_amended 200).1 [⟨1, none, none, ['a'], none, ['c'], none⟩]
      [(['a'], 5)] (by decide) (by decide)
      (by
        intro p hp
        rcases List.mem_singleton.mp hp with rfl
        exact ⟨5, rfl⟩)
  · exact (rebuild_c8_amended 200).2 [] ⟨1, none, none, ['a'], none, ['c'], none⟩
      [⟨2, none, none, ['b'], none, ['d'], none⟩] [(['b'], 5), (['d'], 9)]
      (by decide) (by simp) (by decide)

end WkfBox
